import Mathlib

/-!
Verification of `src/relation_extraction_model/src/utils/relation_extraction.py`.

The file shallowly embeds the two functions of that module:

* `extract_relations_from_model_output` — the lenient triplet parser turning a
  decoded model output string into a list of `{head, type, tail}` records;
* `run_relation_extraction` — the span planner plus the cooperative-cancellation
  batch orchestrator.

Python primitives (`str.strip`, `str.split`, `str.replace`, list slicing,
`math.ceil` division) are modelled by explicit executable functions named
`py…`.  External collaborators (the HuggingFace tokenizer and model) are
abstract function parameters, following the spec's external-interface
contract.  The `CancellationToken` class is not part of the sources given;
its `is_cancelled` poll is modelled from the spec as a boolean function of
the poll index (one poll per batch).
-/

namespace RelationExtraction

/-- Models Python `str.strip()`: drop leading and trailing whitespace. -/
def pyStrip (s : String) : String :=
  String.mk (((s.data.dropWhile Char.isWhitespace).reverse.dropWhile
    Char.isWhitespace).reverse)

/-- Helper for `pySplit`: walk the characters, accumulating the current chunk
of non-whitespace characters in reverse. -/
def pySplitAux : List Char → List Char → List String
  | [], acc => if acc = [] then [] else [String.mk acc.reverse]
  | c :: cs, acc =>
    if c.isWhitespace then
      if acc = [] then pySplitAux cs []
      else String.mk acc.reverse :: pySplitAux cs []
    else pySplitAux cs (c :: acc)

/-- Models Python `str.split()` with no argument: split on runs of whitespace,
discarding empty chunks. -/
def pySplit (s : String) : List String :=
  pySplitAux s.data []

/-- Helper for `pyReplace`: non-overlapping left-to-right replacement of
`pat` by `rep`.  The `fuel` argument (initially the length of the list) makes
the recursion structural; each step consumes at least one character when
`pat` is non-empty, so the fuel never runs out on the inputs we use. -/
def pyReplaceAux (pat rep : List Char) : Nat → List Char → List Char
  | 0, l => l
  | _ + 1, [] => []
  | fuel + 1, c :: cs =>
    if pat ≠ [] ∧ pat.isPrefixOf (c :: cs) then
      rep ++ pyReplaceAux pat rep fuel ((c :: cs).drop pat.length)
    else
      c :: pyReplaceAux pat rep fuel cs

/-- Models Python `str.replace(pat, rep)` for a non-empty pattern. -/
def pyReplace (s pat rep : String) : String :=
  String.mk (pyReplaceAux pat.data rep.data s.data.length s.data)

/-- Models Python list slicing `xs[a:b]` with int indices: negative indices
count from the end, then both indices are clamped to `[0, len]`. -/
def pySliceL {α : Type} (xs : List α) (a b : Int) : List α :=
  let n : Int := xs.length
  let a' : Int := if a < 0 then max (n + a) 0 else min a n
  let b' : Int := if b < 0 then max (n + b) 0 else min b n
  (xs.take b'.toNat).drop a'.toNat

/-- A `{head, type, tail}` record as appended by
`extract_relations_from_model_output` (lines 21–27, 33–39, 52–54). -/
structure RelFrag where
  head : String
  type : String
  tail : String
deriving DecidableEq

/-- The mutable locals of `extract_relations_from_model_output`:
`relations`, `subject`, `relation`, `object_` and the mode flag `current`
(`"x"`, `"t"`, `"s"` or `"o"`). -/
structure ParseState where
  relations : List RelFrag
  subject : String
  relation : String
  object_ : String
  current : String
deriving DecidableEq

/-- One iteration of the `for token in text_replaced.split()` loop of
`extract_relations_from_model_output` (lines 17–50). -/
def stepToken (st : ParseState) (token : String) : ParseState :=
  if token = "<triplet>" then
    let st := { st with current := "t" }
    let st :=
      if st.relation ≠ "" then
        { st with
          relations := st.relations ++
            [⟨pyStrip st.subject, pyStrip st.relation, pyStrip st.object_⟩],
          relation := "" }
      else st
    { st with subject := "" }
  else if token = "<subj>" then
    let st := { st with current := "s" }
    let st :=
      if st.relation ≠ "" then
        { st with
          relations := st.relations ++
            [⟨pyStrip st.subject, pyStrip st.relation, pyStrip st.object_⟩] }
      else st
    { st with object_ := "" }
  else if token = "<obj>" then
    { st with current := "o", relation := "" }
  else
    if st.current = "t" then { st with subject := st.subject ++ " " ++ token }
    else if st.current = "s" then { st with object_ := st.object_ ++ " " ++ token }
    else if st.current = "o" then { st with relation := st.relation ++ " " ++ token }
    else st

/-- Initial parser state (lines 12–15; the double assignment to `relation`
on line 13 leaves every buffer empty and `current = "x"`). -/
def initParseState : ParseState :=
  ⟨[], "", "", "", "x"⟩

/-- The end-of-stream flush of `extract_relations_from_model_output`
(lines 51–54). -/
def finishParse (st : ParseState) : List RelFrag :=
  if st.subject ≠ "" ∧ st.relation ≠ "" ∧ st.object_ ≠ "" then
    st.relations ++ [⟨pyStrip st.subject, pyStrip st.relation, pyStrip st.object_⟩]
  else st.relations

/-- The state machine of `extract_relations_from_model_output` run over an
already-split token stream. -/
def parseTokens (tokens : List String) : List RelFrag :=
  finishParse (tokens.foldl stepToken initParseState)

/-- The token stream the parser works on: `text.strip()`, then the three
boilerplate-marker removals of line 16, then `.split()` (line 17). -/
def modelOutputTokens (text : String) : List String :=
  pySplit (pyReplace (pyReplace (pyReplace (pyStrip text) "<s>" "") "<pad>" "") "</s>" "")

/-- `extract_relations_from_model_output` (lines 11–55). -/
def extractRelationsFromModelOutput (text : String) : List RelFrag :=
  parseTokens (modelOutputTokens text)

/-- Ceiling division on integers: models `math.ceil(p / q)` for `q > 0`
(Lean's `Int` `/` is floor division for a positive divisor). -/
def ceilDivInt (p q : Int) : Int :=
  (p + q - 1) / q

/-- `num_spans = math.ceil(num_tokens / span_length)` (line 65), as a natural
number; models `math.ceil` for `spanLength > 0`. -/
def numSpans (numTokens spanLength : Nat) : Nat :=
  (numTokens + spanLength - 1) / spanLength

/-- `overlap = math.ceil((num_spans * span_length - num_tokens) /
max(num_spans - 1, 1))` (line 66), computed over the integers. -/
def overlapOf (numTokens spanLength : Nat) : Int :=
  ceilDivInt ((numSpans numTokens spanLength : Int) * spanLength - numTokens)
    (max ((numSpans numTokens spanLength : Int) - 1) 1)

/-- The `for i in range(num_spans)` loop of lines 73–77: at step `i` append
`[start + span_length * i, start + span_length * (i + 1)]`, then
`start -= overlap`.  The last argument counts the remaining iterations. -/
def spansLoop (spanLength overlap : Int) : Int → Nat → Nat → List (Int × Int)
  | _, _, 0 => []
  | start, i, k + 1 =>
    (start + spanLength * i, start + spanLength * (i + 1)) ::
      spansLoop spanLength overlap (start - overlap) (i + 1) k

/-- `spans_boundaries` as computed by lines 67–77 of
`run_relation_extraction`, parametric in the span length (the code fixes
`span_length = 256`). -/
def spansBoundaries (numTokens spanLength : Nat) : List (Int × Int) :=
  spansLoop (spanLength : Int) (overlapOf numTokens spanLength) 0 0
    (numSpans numTokens spanLength)

/-- The end offset of the last planned boundary (the point up to which the
planner's windows cover the document):
`num_spans * span_length - overlap * (num_spans - 1)`. -/
def lastEnd (numTokens spanLength : Nat) : Int :=
  (numSpans numTokens spanLength : Int) * spanLength -
    overlapOf numTokens spanLength * ((numSpans numTokens spanLength : Int) - 1)

/-- The `relation["meta"] = {"information": current_span_text}` payload
(lines 138–140). -/
structure RelationMeta where
  information : String
deriving DecidableEq

/-- A relation as returned by `run_relation_extraction`: the parser's
`{head, type, tail}` plus the `meta` attached by lines 137–140. -/
structure Relation where
  head : String
  type : String
  tail : String
  meta : RelationMeta
deriving DecidableEq

/-- The message of the `TimeoutError` value returned on cancellation
(line 145). -/
def cancelMsg : String := "Task cancelled due to timeout"

/-- The `for i, sentence_pred in enumerate(batch_decoded_preds)` loop of
lines 129–142: candidate `i` is parsed, and each parsed fragment is tagged
with the decoded text (special tokens skipped) of window
`i // num_return_sequences` of the current batch.  `dec` abstracts
`tokenizer.decode(·, skip_special_tokens=True)`; `i0` is the index of the
first remaining candidate. -/
def processPreds (dec : List Nat → String) (numReturnSequences : Nat)
    (batchIds : List (List Nat)) : Nat → List String → List Relation
  | _, [] => []
  | i, pred :: rest =>
    let spanText := dec (batchIds.getD (i / numReturnSequences) [])
    (extractRelationsFromModelOutput pred).map
        (fun fr => ⟨fr.head, fr.type, fr.tail, ⟨spanText⟩⟩) ++
      processPreds dec numReturnSequences batchIds (i + 1) rest

/-- Helper for `toBatches`; the fuel (initially the list length) makes the
recursion structural and never runs out for `batchSize > 0`. -/
def toBatchesAux {α : Type} (batchSize : Nat) : Nat → List α → List (List α)
  | 0, _ => []
  | _ + 1, [] => []
  | fuel + 1, l => l.take batchSize :: toBatchesAux batchSize fuel (l.drop batchSize)

/-- The batch partition produced by
`for batch_start in range(0, len(tensor_ids), batch_size)` together with the
slices `tensor_ids[batch_start:batch_end]` (lines 106–115): consecutive
chunks of `batchSize` windows, the last possibly shorter.  `batchSize = 0`
would make Python's `range` raise, so it yields no batches here. -/
def toBatches {α : Type} (batchSize : Nat) (l : List α) : List (List α) :=
  if batchSize = 0 then [] else toBatchesAux batchSize l.length l

/-- The batch loop of lines 106–145, instrumented with a count of
`model.generate` calls (second component).  `gen` abstracts
`tokenizer.batch_decode(model.generate(ids, masks, **gen_kwargs))`, i.e. the
decoded candidate strings for one batch; `cancelled` gives the value of
`cancellation_token.is_cancelled()` at each poll (one poll per loop
iteration, indexed from 0); `acc` is the `relations` accumulator.  On a poll
that reports cancelled the loop returns the `TimeoutError` value of
line 145, modelled as `Except.error`. -/
def processBatches (gen : List (List Nat) → List (List Nat) → List String)
    (dec : List Nat → String) (numReturnSequences : Nat)
    (cancelled : Nat → Bool) :
    Nat → List (List (List Nat) × List (List Nat)) → List Relation →
    Except String (List Relation) × Nat
  | _, [], acc => (.ok acc, 0)
  | k, b :: bs, acc =>
    if cancelled k = false then
      let preds := gen b.1 b.2
      let rels := processPreds dec numReturnSequences b.1 0 preds
      let r := processBatches gen dec numReturnSequences cancelled (k + 1) bs
        (acc ++ rels)
      (r.1, r.2 + 1)
    else
      (.error cancelMsg, 0)

/-- The per-window token-id slices `tensor_ids` (lines 80–83); the code
fixes `span_length = 256` (line 59). -/
def windowsOf (inputIds : List Nat) : List (List Nat) :=
  (spansBoundaries inputIds.length 256).map (fun bd => pySliceL inputIds bd.1 bd.2)

/-- The per-window attention-mask slices `tensor_masks` (lines 84–87),
sliced at boundaries computed from the token count. -/
def maskWindowsOf (inputIds attentionMask : List Nat) : List (List Nat) :=
  (spansBoundaries inputIds.length 256).map
    (fun bd => pySliceL attentionMask bd.1 bd.2)

/-- The sequence of `(input_ids, attention_mask)` batches fed to
`model.generate`, one entry per iteration of the loop at line 106. -/
def batchesOf (inputIds attentionMask : List Nat) (batchSize : Nat) :
    List (List (List Nat) × List (List Nat)) :=
  (toBatches batchSize (windowsOf inputIds)).zip
    (toBatches batchSize (maskWindowsOf inputIds attentionMask))

/-- `run_relation_extraction` (lines 58–151) from the tokenized input
onward: plan spans over `len(inputs["input_ids"][0])`, slice windows, and
run the batch loop.  Tokenization itself (line 61) is external; the result
is the relation list, or the cancellation error value, paired with the
number of `model.generate` calls issued. -/
def runRelationExtraction (inputIds attentionMask : List Nat)
    (batchSize numReturnSequences : Nat) (cancelled : Nat → Bool)
    (gen : List (List Nat) → List (List Nat) → List String)
    (dec : List Nat → String) : Except String (List Relation) × Nat :=
  processBatches gen dec numReturnSequences cancelled 0
    (batchesOf inputIds attentionMask batchSize) []

/-! ### Span planner lemmas -/

/-- `numSpans` is the ceiling of `numTokens / spanLength`:
`numTokens ≤ numSpans * spanLength < numTokens + spanLength`. -/
lemma numSpans_mul_bounds (T L : Nat) (hL : 0 < L) :
    T ≤ numSpans T L * L ∧ numSpans T L * L < T + L := by
  have h := Nat.div_add_mod (T + L - 1) L
  have hm : (T + L - 1) % L < L := Nat.mod_lt _ hL
  unfold numSpans
  have hc : L * ((T + L - 1) / L) = ((T + L - 1) / L) * L := Nat.mul_comm _ _
  omega

lemma numSpans_pos (T L : Nat) (hT : 0 < T) (hL : 0 < L) : 0 < numSpans T L := by
  have h := numSpans_mul_bounds T L hL
  rcases Nat.eq_zero_or_pos (numSpans T L) with h0 | h0
  · rw [h0] at h; omega
  · exact h0

/-- Characterization of the integer ceiling division for a positive divisor:
`p ≤ ceilDivInt p q * q ≤ p + q - 1`. -/
lemma ceilDivInt_mul_bounds (p q : Int) (hq : 0 < q) :
    p ≤ ceilDivInt p q * q ∧ ceilDivInt p q * q ≤ p + q - 1 := by
  have h := Int.ediv_add_emod (p + q - 1) q
  have h0 : 0 ≤ (p + q - 1) % q := Int.emod_nonneg _ (by omega)
  have h1 : (p + q - 1) % q < q := Int.emod_lt_of_pos _ hq
  unfold ceilDivInt
  have hc : q * ((p + q - 1) / q) = ((p + q - 1) / q) * q := mul_comm _ _
  omega

lemma ceilDivInt_nonneg (p q : Int) (hp : 0 ≤ p) (hq : 0 < q) :
    0 ≤ ceilDivInt p q :=
  Int.ediv_nonneg (by omega) (by omega)

/-- For at least two spans, the overlap is non-negative, strictly below the
span length, and makes the windows tile at least `numTokens` minus a slack
of at most `numSpans - 2`:
`numSpans * spanLength - numTokens ≤ overlap * (numSpans - 1)
  ≤ numSpans * spanLength - numTokens + numSpans - 2`. -/
lemma overlapOf_bounds (T L : Nat) (hL : 0 < L) (h2 : 2 ≤ numSpans T L) :
    0 ≤ overlapOf T L ∧ overlapOf T L < L ∧
      (numSpans T L : Int) * L - T ≤ overlapOf T L * ((numSpans T L : Int) - 1) ∧
      overlapOf T L * ((numSpans T L : Int) - 1) ≤
        (numSpans T L : Int) * L - T + (numSpans T L : Int) - 2 := by
  have hbounds := numSpans_mul_bounds T L hL
  have hn2 : (2 : Int) ≤ (numSpans T L : Int) := by exact_mod_cast h2
  have hcast1 : (T : Int) ≤ (numSpans T L : Int) * L := by exact_mod_cast hbounds.1
  have hcast2 : (numSpans T L : Int) * L < (T : Int) + L := by exact_mod_cast hbounds.2
  have hov : overlapOf T L =
      ceilDivInt ((numSpans T L : Int) * L - T) ((numSpans T L : Int) - 1) := by
    unfold overlapOf
    congr 1
    omega
  have hkey := ceilDivInt_mul_bounds ((numSpans T L : Int) * L - T)
    ((numSpans T L : Int) - 1) (by omega)
  rw [← hov] at hkey
  have hovnn : 0 ≤ overlapOf T L := by
    rw [hov]
    exact ceilDivInt_nonneg _ _ (by omega) (by omega)
  have hovL : overlapOf T L < L := by
    by_contra hge
    push_neg at hge
    have h1 : (L : Int) * ((numSpans T L : Int) - 1) ≤
        overlapOf T L * ((numSpans T L : Int) - 1) :=
      mul_le_mul_of_nonneg_right hge (by omega)
    have h2' : (0 : Int) ≤ ((L : Int) - 1) * ((numSpans T L : Int) - 2) :=
      mul_nonneg (by omega) (by omega)
    have hr1 : (L : Int) * ((numSpans T L : Int) - 1) = (numSpans T L : Int) * L - L := by
      ring
    have hr2 : ((L : Int) - 1) * ((numSpans T L : Int) - 2) =
        (numSpans T L : Int) * L - 2 * L - (numSpans T L : Int) + 2 := by
      ring
    omega
  exact ⟨hovnn, hovL, by omega, by omega⟩

lemma spansLoop_length (L ov : Int) :
    ∀ (k : Nat) (start : Int) (i : Nat), (spansLoop L ov start i k).length = k := by
  intro k
  induction k with
  | zero => intro start i; rfl
  | succ k ih => intro start i; simp [spansLoop, ih]

/-- Closed form of the boundary loop: the `j`-th produced boundary is
`(start - ov * j + L * (i + j), start - ov * j + L * (i + j + 1))`. -/
lemma mem_spansLoop (L ov : Int) :
    ∀ (k : Nat) (start : Int) (i : Nat) (p : Int × Int),
      p ∈ spansLoop L ov start i k ↔
        ∃ j : Nat, j < k ∧
          p = (start - ov * j + L * (i + j), start - ov * j + L * (i + j + 1)) := by
  intro k
  induction k with
  | zero =>
    intro start i p
    simp [spansLoop]
  | succ k ih =>
    intro start i p
    simp only [spansLoop, List.mem_cons, ih]
    constructor
    · rintro (h | ⟨j, hj, hp⟩)
      · exact ⟨0, by omega, by simpa using h⟩
      · refine ⟨j + 1, by omega, ?_⟩
        rw [hp]
        simp only [Prod.mk.injEq]
        constructor <;> (push_cast; ring)
    · rintro ⟨j, hj, hp⟩
      cases j with
      | zero => left; simpa using hp
      | succ j =>
        right
        refine ⟨j, by omega, ?_⟩
        rw [hp]
        simp only [Prod.mk.injEq]
        constructor <;> (push_cast; ring)

/-- Membership in the planned boundary list: boundary `j` runs from
`(L - overlap) * j` to `(L - overlap) * j + L`. -/
lemma mem_spansBoundaries (T L : Nat) (p : Int × Int) :
    p ∈ spansBoundaries T L ↔
      ∃ j : Nat, j < numSpans T L ∧
        p = (((L : Int) - overlapOf T L) * j, ((L : Int) - overlapOf T L) * j + L) := by
  unfold spansBoundaries
  rw [mem_spansLoop]
  constructor
  · rintro ⟨j, hj, hp⟩
    refine ⟨j, hj, ?_⟩
    rw [hp]
    simp only [Prod.mk.injEq]
    constructor <;> (push_cast; ring)
  · rintro ⟨j, hj, hp⟩
    refine ⟨j, hj, ?_⟩
    rw [hp]
    simp only [Prod.mk.injEq]
    constructor <;> (push_cast; ring)

lemma spansBoundaries_length (T L : Nat) :
    (spansBoundaries T L).length = numSpans T L :=
  spansLoop_length _ _ _ _ _

/-- Non-negativity of every planned start offset (for any input at all). -/
lemma spansBoundaries_start_nonneg (T L : Nat) (b : Int × Int)
    (hb : b ∈ spansBoundaries T L) : 0 ≤ b.1 := by
  rw [mem_spansBoundaries] at hb
  obtain ⟨j, hj, hp⟩ := hb
  rcases Nat.lt_or_ge (numSpans T L) 2 with hlt | hge
  · -- zero or one span: the only possible boundary starts at 0
    have hj0 : j = 0 := by omega
    rw [hp, hj0]
    simp
  · -- at least two spans: the step L - overlap is positive
    have hL : 0 < L := by
      by_contra hL0
      push_neg at hL0
      have : L = 0 := by omega
      rw [this] at hge
      simp [numSpans] at hge
    have hov := overlapOf_bounds T L hL hge
    have hstep : (0 : Int) ≤ (L : Int) - overlapOf T L := by omega
    rw [hp]
    exact mul_nonneg hstep (by positivity)

/-- Every prefix of the window chain covers `[0, step * j + L)`: the windows
abut or overlap because the step `L - overlap` is at most `L`. -/
lemma spansBoundaries_cover_step (T L : Nat) (hL : 0 < L) (h2 : 2 ≤ numSpans T L) :
    ∀ j : Nat, j < numSpans T L →
      ∀ t : Int, 0 ≤ t → t < ((L : Int) - overlapOf T L) * j + L →
        ∃ b ∈ spansBoundaries T L, b.1 ≤ t ∧ t < b.2 := by
  have hov := overlapOf_bounds T L hL h2
  intro j
  induction j with
  | zero =>
    intro hj t ht0 htlt
    refine ⟨_, (mem_spansBoundaries T L _).mpr ⟨0, hj, rfl⟩, ?_, ?_⟩ <;>
      simp only [Nat.cast_zero, mul_zero] <;> omega
  | succ j ih =>
    intro hj t ht0 htlt
    by_cases hcase : t < ((L : Int) - overlapOf T L) * (j + 1 : Nat)
    · refine ih (by omega) t ht0 ?_
      have hr : ((L : Int) - overlapOf T L) * ((j : Int) + 1) =
          ((L : Int) - overlapOf T L) * j + ((L : Int) - overlapOf T L) := by ring
      push_cast at hcase
      omega
    · push_neg at hcase
      refine ⟨_, (mem_spansBoundaries T L _).mpr ⟨j + 1, hj, rfl⟩, hcase, htlt⟩

/-- `lastEnd` as `step * (numSpans - 1) + spanLength` when there are at
least two spans. -/
lemma lastEnd_eq_step (T L : Nat) :
    lastEnd T L =
      ((L : Int) - overlapOf T L) * ((numSpans T L : Int) - 1) + L := by
  unfold lastEnd
  ring

lemma pySliceL_length_of_bounds {α : Type} (xs : List α) (a b : Int)
    (ha : 0 ≤ a) (hab : a ≤ b) (hb : b ≤ xs.length) :
    (pySliceL xs a b).length = (b - a).toNat := by
  simp only [pySliceL]
  rw [if_neg (by omega), if_neg (by omega)]
  simp only [List.length_drop, List.length_take]
  omega

/-! ### Triplet parser lemmas -/

/-- A token as produced by `pySplit`: non-empty and free of whitespace. -/
def goodToken (t : String) : Prop :=
  t.data ≠ [] ∧ ∀ c ∈ t.data, c.isWhitespace = false

lemma mem_dropWhile_of_not {α : Type} (p : α → Bool) (c : α) :
    ∀ l : List α, c ∈ l → p c = false → c ∈ l.dropWhile p := by
  intro l
  induction l with
  | nil => intro h; exact absurd h (List.not_mem_nil c)
  | cons a t ih =>
    intro hmem hpc
    rw [List.dropWhile_cons]
    by_cases hpa : p a = true
    · rw [if_pos hpa]
      rcases List.mem_cons.mp hmem with rfl | hmem'
      · rw [hpc] at hpa; exact absurd hpa (by simp)
      · exact ih hmem' hpc
    · rw [if_neg hpa]
      exact hmem

/-- A string containing a non-whitespace character does not strip to the
empty string. -/
lemma pyStrip_ne_empty (s : String) (c : Char) (hc : c ∈ s.data)
    (hw : c.isWhitespace = false) : pyStrip s ≠ "" := by
  intro hcontra
  have h1 : c ∈ s.data.dropWhile Char.isWhitespace :=
    mem_dropWhile_of_not _ c s.data hc hw
  have h2 : c ∈ ((s.data.dropWhile Char.isWhitespace).reverse.dropWhile
      Char.isWhitespace).reverse := by
    rw [List.mem_reverse]
    exact mem_dropWhile_of_not _ c _ (List.mem_reverse.mpr h1) hw
  have h3 : (((s.data.dropWhile Char.isWhitespace).reverse.dropWhile
      Char.isWhitespace).reverse) = [] := congrArg String.data hcontra
  rw [h3] at h2
  exact absurd h2 (List.not_mem_nil c)

lemma mem_pySplitAux (l : List Char) :
    ∀ (acc : List Char) (t : String), (∀ c ∈ acc, c.isWhitespace = false) →
      t ∈ pySplitAux l acc → goodToken t := by
  induction l with
  | nil =>
    intro acc t hacc ht
    unfold pySplitAux at ht
    by_cases hnil : acc = []
    · rw [if_pos hnil] at ht
      exact absurd ht (List.not_mem_nil t)
    · rw [if_neg hnil] at ht
      rcases List.mem_singleton.mp ht with rfl
      refine ⟨by simpa using hnil, ?_⟩
      intro c hcmem
      exact hacc c (List.mem_reverse.mp (by simpa using hcmem))
  | cons a rest ih =>
    intro acc t hacc ht
    unfold pySplitAux at ht
    by_cases hws : a.isWhitespace = true
    · rw [if_pos hws] at ht
      by_cases hnil : acc = []
      · rw [if_pos hnil] at ht
        exact ih [] t (by simp) ht
      · rw [if_neg hnil] at ht
        rcases List.mem_cons.mp ht with rfl | ht'
        · refine ⟨by simpa using hnil, ?_⟩
          intro c hcmem
          exact hacc c (List.mem_reverse.mp (by simpa using hcmem))
        · exact ih [] t (by simp) ht'
    · rw [if_neg hws] at ht
      refine ih (a :: acc) t ?_ ht
      intro c hcmem
      rcases List.mem_cons.mp hcmem with rfl | hc'
      · simpa using hws
      · exact hacc c hc'

lemma goodToken_of_mem_pySplit (s : String) (t : String) (ht : t ∈ pySplit s) :
    goodToken t :=
  mem_pySplitAux s.data [] t (by simp) ht

/-- The invariant maintained by the parsing loop: every flushed relation has
a non-empty type, and the `relation` buffer is either empty or contains a
non-whitespace character. -/
def GoodState (st : ParseState) : Prop :=
  (∀ r ∈ st.relations, r.type ≠ "") ∧
    (st.relation = "" ∨ ∃ c ∈ st.relation.data, c.isWhitespace = false)

lemma goodState_init : GoodState initParseState := by
  constructor
  · intro r hr
    exact absurd hr (List.not_mem_nil r)
  · left
    rfl

lemma stepToken_good (st : ParseState) (t : String) (hst : GoodState st)
    (ht : goodToken t) : GoodState (stepToken st t) := by
  obtain ⟨hrels, hrel⟩ := hst
  obtain ⟨htne, htws⟩ := ht
  have hflush : st.relation ≠ "" → pyStrip st.relation ≠ "" := by
    intro hne
    rcases hrel with h | ⟨c, hc, hcw⟩
    · exact absurd h hne
    · exact pyStrip_ne_empty _ c hc hcw
  have happend : ∀ s : String,
      ∃ c ∈ (s ++ " " ++ t).data, c.isWhitespace = false := by
    intro s
    obtain ⟨c, hc⟩ := List.exists_mem_of_ne_nil t.data htne
    refine ⟨c, ?_, htws c hc⟩
    rw [String.data_append]
    exact List.mem_append_right _ hc
  unfold stepToken
  split_ifs with h1 h2 h3 h4 h5 h6
  · -- token = "<triplet>"
    dsimp only
    split_ifs with hr
    · refine ⟨?_, Or.inl rfl⟩
      intro r hr'
      rcases List.mem_append.mp hr' with h | h
      · exact hrels r h
      · rcases List.mem_singleton.mp h with rfl
        exact hflush hr
    · exact ⟨hrels, hrel⟩
  · -- token = "<subj>"
    dsimp only
    split_ifs with hr
    · refine ⟨?_, hrel⟩
      intro r hr'
      rcases List.mem_append.mp hr' with h | h
      · exact hrels r h
      · rcases List.mem_singleton.mp h with rfl
        exact hflush hr
    · exact ⟨hrels, hrel⟩
  · -- token = "<obj>"
    exact ⟨hrels, Or.inl rfl⟩
  · -- current = "t": append to subject
    exact ⟨hrels, hrel⟩
  · -- current = "s": append to object_
    exact ⟨hrels, hrel⟩
  · -- current = "o": append to relation
    exact ⟨hrels, Or.inr (happend st.relation)⟩
  · -- stray token before any marker
    exact ⟨hrels, hrel⟩

lemma foldl_good (tokens : List String) :
    ∀ st : ParseState, GoodState st → (∀ t ∈ tokens, goodToken t) →
      GoodState (tokens.foldl stepToken st) := by
  induction tokens with
  | nil => intro st hst _; exact hst
  | cons t rest ih =>
    intro st hst htokens
    exact ih (stepToken st t)
      (stepToken_good st t hst (htokens t (List.mem_cons_self t rest)))
      (fun u hu => htokens u (List.mem_cons_of_mem t hu))

lemma finishParse_good (st : ParseState) (hst : GoodState st) :
    ∀ r ∈ finishParse st, r.type ≠ "" := by
  obtain ⟨hrels, hrel⟩ := hst
  intro r hr
  unfold finishParse at hr
  split_ifs at hr with hcond
  · rcases List.mem_append.mp hr with hr' | hr'
    · exact hrels r hr'
    · rcases List.mem_singleton.mp hr' with rfl
      rcases hrel with h | ⟨c, hc, hcw⟩
      · exact absurd h hcond.2.1
      · exact pyStrip_ne_empty _ c hc hcw
  · exact hrels r hr

/-! ### Claims about the triplet parser -/

/-- C3, counterexample: on the stream `"<obj> R <triplet>"` the parser
flushes at `<triplet>` with only the relation-type buffer filled, emitting a
relation whose head and tail are both empty. -/
theorem C3_counterexample :
    extractRelationsFromModelOutput "<obj> R <triplet>" = [⟨"", "R", ""⟩] ∧
      ∃ r ∈ extractRelationsFromModelOutput "<obj> R <triplet>",
        r.head = "" ∧ r.tail = "" := by
  decide

/-- C3, amended: every relation the parser emits has a non-empty `type`,
but `head` and `tail` may be empty — a mid-stream flush at `<triplet>` or
`<subj>` only requires a pending non-empty relation-type buffer. -/
theorem C3_type_nonempty_amended (text : String) (r : RelFrag)
    (hr : r ∈ extractRelationsFromModelOutput text) : r.type ≠ "" := by
  refine finishParse_good _ ?_ r hr
  exact foldl_good (modelOutputTokens text) initParseState goodState_init
    (fun t ht => goodToken_of_mem_pySplit _ t ht)

/-- C3, witness for the amended theorem: the relation parsed from
`"<triplet> A B <subj> C <obj> D"` has the non-empty type `"D"`. -/
theorem C3_type_nonempty_amended_witness :
    (⟨"A B", "D", "C"⟩ : RelFrag) ∈
        extractRelationsFromModelOutput "<triplet> A B <subj> C <obj> D" ∧
      (⟨"A B", "D", "C"⟩ : RelFrag).type ≠ "" :=
  ⟨by decide, C3_type_nonempty_amended "<triplet> A B <subj> C <obj> D" _ (by decide)⟩

/-- C6: the parser maps the stream `"<triplet> A B <subj> C <obj> D"` to
exactly `[{head: "A B", type: "D", tail: "C"}]` (the text after `<obj>`
is the relation type and the text after `<subj>` is the tail). -/
theorem C6_parser_roundtrip :
    extractRelationsFromModelOutput "<triplet> A B <subj> C <obj> D" =
      [⟨"A B", "D", "C"⟩] := by
  decide

lemma stepToken_nonmarker_init (t : String) (h1 : t ≠ "<triplet>")
    (h2 : t ≠ "<subj>") (h3 : t ≠ "<obj>") :
    stepToken initParseState t = initParseState := by
  unfold stepToken
  rw [if_neg h1, if_neg h2, if_neg h3]
  rw [if_neg (by decide), if_neg (by decide), if_neg (by decide)]

lemma foldl_nonmarker (tokens : List String)
    (h : ∀ t ∈ tokens, t ≠ "<triplet>" ∧ t ≠ "<subj>" ∧ t ≠ "<obj>") :
    tokens.foldl stepToken initParseState = initParseState := by
  induction tokens with
  | nil => rfl
  | cons t rest ih =>
    have ht := h t (List.mem_cons_self t rest)
    rw [List.foldl_cons, stepToken_nonmarker_init t ht.1 ht.2.1 ht.2.2]
    exact ih (fun u hu => h u (List.mem_cons_of_mem t hu))

/-- C9: the parser is a total function; a stream whose tokens contain none
of the control markers `<triplet>`, `<subj>`, `<obj>` — in particular the
empty stream — parses to the empty relation list without any failure. -/
theorem C9_parser_lenient (text : String)
    (h : ∀ t ∈ modelOutputTokens text,
      t ≠ "<triplet>" ∧ t ≠ "<subj>" ∧ t ≠ "<obj>") :
    extractRelationsFromModelOutput text = [] := by
  unfold extractRelationsFromModelOutput parseTokens
  rw [foldl_nonmarker _ h]
  decide

/-- C9, witness: the empty input has no marker tokens and parses to `[]`. -/
theorem C9_parser_lenient_witness :
    (∀ t ∈ modelOutputTokens "",
      t ≠ "<triplet>" ∧ t ≠ "<subj>" ∧ t ≠ "<obj>") ∧
      extractRelationsFromModelOutput "" = [] :=
  ⟨by decide, C9_parser_lenient "" (by decide)⟩

/-! ### Claims about the span planner -/

/-- C1, counterexample: for 9 tokens and span length 4 the planner emits
`[0,4), [2,6), [4,8)` — token index 8 lies in `[0, 9)` but in no boundary,
so the claimed full coverage of `[0, num_tokens)` fails. -/
theorem C1_counterexample :
    0 < 9 ∧ 0 < 4 ∧ (0 : Int) ≤ 8 ∧ (8 : Int) < 9 ∧
      ¬ ∃ b ∈ spansBoundaries 9 4, b.1 ≤ 8 ∧ (8 : Int) < b.2 := by
  decide

/-- C1, amended: for positive `num_tokens` and `span_length` the planner
emits exactly `ceil(num_tokens / span_length)` boundaries, each of width
exactly `span_length`, but their union clamped to `[0, num_tokens)` only
covers the indices below `lastEnd = num_spans * span_length -
overlap * (num_spans - 1)`; the uncovered suffix has at most
`num_spans - 2` indices. -/
theorem C1_spanPlanner_amended (T L : Nat) (hT : 0 < T) (hL : 0 < L) :
    (spansBoundaries T L).length = numSpans T L ∧
    (T ≤ numSpans T L * L ∧ numSpans T L * L < T + L) ∧
    (∀ b ∈ spansBoundaries T L, b.2 - b.1 = (L : Int)) ∧
    (∀ t : Int, 0 ≤ t → t < (T : Int) → t < lastEnd T L →
      ∃ b ∈ spansBoundaries T L, b.1 ≤ t ∧ t < b.2) ∧
    (T : Int) - lastEnd T L ≤ max ((numSpans T L : Int) - 2) 0 := by
  have hbounds := numSpans_mul_bounds T L hL
  have hpos := numSpans_pos T L hT hL
  refine ⟨spansBoundaries_length T L, hbounds, ?_, ?_, ?_⟩
  · intro b hb
    rw [mem_spansBoundaries] at hb
    obtain ⟨j, hj, hp⟩ := hb
    rw [hp]
    ring
  · intro t ht0 htT htE
    rcases Nat.lt_or_ge (numSpans T L) 2 with h1 | h2
    · -- a single span `[0, L)`; it covers all of `[0, T)` since `T ≤ L`
      have hn1 : numSpans T L = 1 := by omega
      have hTL : (T : Int) ≤ (L : Int) := by
        have := hbounds.1
        rw [hn1] at this
        exact_mod_cast by omega
      refine ⟨_, (mem_spansBoundaries T L _).mpr ⟨0, by omega, rfl⟩, ?_, ?_⟩ <;>
        simp only [Nat.cast_zero, mul_zero] <;> omega
    · have hstep := lastEnd_eq_step T L
      have hcast : ((numSpans T L - 1 : Nat) : Int) = (numSpans T L : Int) - 1 := by
        omega
      refine spansBoundaries_cover_step T L hL h2 (numSpans T L - 1) (by omega) t ht0 ?_
      rw [hstep] at htE
      rw [hcast]
      exact htE
  · rcases Nat.lt_or_ge (numSpans T L) 2 with h1 | h2
    · have hn1 : numSpans T L = 1 := by omega
      have hTL : T ≤ L := by
        have := hbounds.1
        rw [hn1] at this
        omega
      unfold lastEnd
      rw [hn1]
      push_cast
      omega
    · have hov := overlapOf_bounds T L hL h2
      unfold lastEnd
      omega

/-- C1, witness for the amended theorem at 300 tokens and span length 256. -/
theorem C1_spanPlanner_amended_witness :
    0 < 300 ∧ 0 < 256 ∧
      ((spansBoundaries 300 256).length = numSpans 300 256 ∧
        (300 ≤ numSpans 300 256 * 256 ∧ numSpans 300 256 * 256 < 300 + 256) ∧
        (∀ b ∈ spansBoundaries 300 256, b.2 - b.1 = (256 : Int)) ∧
        (∀ t : Int, 0 ≤ t → t < (300 : Int) → t < lastEnd 300 256 →
          ∃ b ∈ spansBoundaries 300 256, b.1 ≤ t ∧ t < b.2) ∧
        (300 : Int) - lastEnd 300 256 ≤ max ((numSpans 300 256 : Int) - 2) 0) :=
  ⟨by decide, by decide, C1_spanPlanner_amended 300 256 (by decide) (by decide)⟩

/-- C4, counterexample: for 300 tokens and span length 256 the planner does
not return `[0, 256)` and `[-212, 44)`; the second boundary is `[44, 300)`. -/
theorem C4_counterexample :
    spansBoundaries 300 256 ≠ [(0, 256), (-212, 44)] ∧
      (spansBoundaries 300 256).getD 1 (0, 0) = (44, 300) := by
  decide

/-- C4, amended: for 300 tokens and span length 256 the planner computes
`num_spans = 2` and `overlap = 212`, and returns exactly the boundaries
`[0, 256)` and `[44, 300)`. -/
theorem C4_scenario_300_tokens :
    numSpans 300 256 = 2 ∧ overlapOf 300 256 = 212 ∧
      spansBoundaries 300 256 = [(0, 256), (44, 300)] := by
  decide

/-- C5, counterexample: for 100 tokens and span length 256 (so
`0 < num_tokens ≤ span_length`) the computed overlap is 156, not 0. -/
theorem C5_counterexample :
    0 < 100 ∧ 100 ≤ 256 ∧ overlapOf 100 256 ≠ 0 ∧ overlapOf 100 256 = 156 := by
  decide

/-- C5, amended: for `0 < num_tokens ≤ span_length` the planner returns
exactly one boundary `[0, span_length)`, and the computed overlap equals
`span_length - num_tokens` (which is 0 only when the document exactly fills
the span). -/
theorem C5_single_span_amended (T L : Nat) (hT : 0 < T) (hTL : T ≤ L) :
    spansBoundaries T L = [(0, (L : Int))] ∧
      overlapOf T L = (L : Int) - T := by
  have hL : 0 < L := by omega
  have hn1 : numSpans T L = 1 := by
    have h := numSpans_mul_bounds T L hL
    have hpos := numSpans_pos T L hT hL
    rcases Nat.lt_or_ge (numSpans T L) 2 with h1 | h2
    · omega
    · exfalso
      have h2L : 2 * L ≤ numSpans T L * L :=
        Nat.mul_le_mul_right L h2
      omega
  constructor
  · unfold spansBoundaries
    rw [hn1]
    simp [spansLoop]
  · unfold overlapOf ceilDivInt
    rw [hn1]
    norm_num

/-- C5, witness for the amended theorem at 100 tokens and span length 256. -/
theorem C5_single_span_amended_witness :
    0 < 100 ∧ 100 ≤ 256 ∧
      (spansBoundaries 100 256 = [(0, (256 : Int))] ∧
        overlapOf 100 256 = (256 : Int) - 100) :=
  ⟨by decide, by decide, C5_single_span_amended 100 256 (by decide) (by decide)⟩

/-- C8, counterexample (the claim's negation, proved universally): there is
no input at all on which the planner emits a boundary with negative start —
in particular not when the document is shorter than one span. -/
theorem C8_counterexample :
    ¬ ∃ (T L : Nat), ∃ b ∈ spansBoundaries T L, b.1 < 0 := by
  rintro ⟨T, L, b, hb, hneg⟩
  exact absurd (spansBoundaries_start_nonneg T L b hb) (by omega)

/-- C8, amended: every boundary the planner ever produces has a
non-negative start offset (the overlap never exceeds the accumulated
span offset). -/
theorem C8_starts_never_negative (T L : Nat) (b : Int × Int)
    (hb : b ∈ spansBoundaries T L) : 0 ≤ b.1 :=
  spansBoundaries_start_nonneg T L b hb

/-- C8, witness for the amended theorem at a concrete input: the second
boundary for 9 tokens with span length 4 starts at 2 ≥ 0. -/
theorem C8_starts_never_negative_witness :
    (2, 6) ∈ spansBoundaries 9 4 ∧ (0 : Int) ≤ 2 :=
  ⟨by decide, C8_starts_never_negative 9 4 (2, 6) (by decide)⟩

/-- C10: with at least two spans, every planned boundary `[start, end)`
satisfies `0 ≤ start < end ≤ num_tokens`, so slicing a document of
`num_tokens` elements at the boundary yields exactly `span_length`
elements — the defensive clamping in `pySliceL` is never exercised. -/
theorem C10_boundaries_in_range (T L : Nat) (_hT : 0 < T) (hL : 0 < L)
    (h2 : 2 ≤ numSpans T L) (b : Int × Int) (hb : b ∈ spansBoundaries T L) :
    0 ≤ b.1 ∧ b.1 < b.2 ∧ b.2 ≤ (T : Int) ∧
      ∀ xs : List Nat, xs.length = T → (pySliceL xs b.1 b.2).length = L := by
  have hov := overlapOf_bounds T L hL h2
  have hbounds := numSpans_mul_bounds T L hL
  have hcast1 : (T : Int) ≤ (numSpans T L : Int) * L := by exact_mod_cast hbounds.1
  rw [mem_spansBoundaries] at hb
  obtain ⟨j, hj, hp⟩ := hb
  have hstep : (0 : Int) < (L : Int) - overlapOf T L := by omega
  have hjle : (j : Int) ≤ (numSpans T L : Int) - 1 := by omega
  have hmono : ((L : Int) - overlapOf T L) * j ≤
      ((L : Int) - overlapOf T L) * ((numSpans T L : Int) - 1) :=
    mul_le_mul_of_nonneg_left hjle (by omega)
  have hr : ((L : Int) - overlapOf T L) * ((numSpans T L : Int) - 1) + L =
      (numSpans T L : Int) * L - overlapOf T L * ((numSpans T L : Int) - 1) := by
    ring
  have h1 : 0 ≤ b.1 := by
    rw [hp]
    exact mul_nonneg (by omega) (by positivity)
  have h2' : b.1 < b.2 := by rw [hp]; simp; omega
  have h3 : b.2 ≤ (T : Int) := by
    rw [hp]
    simp only []
    omega
  refine ⟨h1, h2', h3, ?_⟩
  intro xs hxs
  rw [pySliceL_length_of_bounds xs b.1 b.2 h1 (by omega) (by rw [hxs]; exact h3)]
  rw [hp]
  simp only []
  omega

/-- C10, witness at a concrete input: for 300 tokens and span length 256
(two spans), the boundary `[44, 300)` is in range and slices to exactly 256
elements. -/
theorem C10_boundaries_in_range_witness :
    (0 : Int) ≤ 44 ∧ (44 : Int) < 300 ∧ (300 : Int) ≤ 300 ∧
      ∀ xs : List Nat, xs.length = 300 → (pySliceL xs 44 300).length = 256 := by
  have h := C10_boundaries_in_range 300 256 (by decide) (by decide) (by decide)
    (44, 300) (by decide)
  exact ⟨h.1, h.2.1, h.2.2.1, h.2.2.2⟩

/-! ### Batch orchestrator lemmas -/

/-- If the first cancelled poll is the `k`-th one (counting from poll index
`k0`) and `k` batches remain beyond it, the loop returns the cancellation
error after exactly `k` generate calls. -/
lemma processBatches_cancel (gen : List (List Nat) → List (List Nat) → List String)
    (dec : List Nat → String) (nrs : Nat) (cancelled : Nat → Bool) :
    ∀ (batches : List (List (List Nat) × List (List Nat))) (k0 : Nat)
      (acc : List Relation) (k : Nat), k < batches.length →
      cancelled (k0 + k) = true → (∀ j, j < k → cancelled (k0 + j) = false) →
      processBatches gen dec nrs cancelled k0 batches acc = (.error cancelMsg, k) := by
  intro batches
  induction batches with
  | nil =>
    intro k0 acc k hk
    exact absurd hk (by simp)
  | cons b bs ih =>
    intro k0 acc k hk hck hprev
    cases k with
    | zero =>
      unfold processBatches
      rw [if_neg (by simpa using hck)]
    | succ j =>
      have hc0 : cancelled k0 = false := by
        have := hprev 0 (by omega)
        simpa using this
      unfold processBatches
      rw [if_pos hc0]
      dsimp only
      rw [ih (k0 + 1) _ j (by simpa using hk)
        (by rw [show k0 + 1 + j = k0 + (j + 1) by omega]; exact hck)
        (by
          intro j' hj'
          rw [show k0 + 1 + j' = k0 + (j' + 1) by omega]
          exact hprev (j' + 1) (by omega))]

/-- If no poll ever reports cancelled, the loop returns the accumulator
followed by every batch's parsed relations, after one generate call per
batch. -/
lemma processBatches_ok (gen : List (List Nat) → List (List Nat) → List String)
    (dec : List Nat → String) (nrs : Nat) (cancelled : Nat → Bool)
    (hc : ∀ k, cancelled k = false) :
    ∀ (batches : List (List (List Nat) × List (List Nat))) (k0 : Nat)
      (acc : List Relation),
      processBatches gen dec nrs cancelled k0 batches acc =
        (.ok (acc ++
          (batches.map (fun b => processPreds dec nrs b.1 0 (gen b.1 b.2))).flatten),
          batches.length) := by
  intro batches
  induction batches with
  | nil =>
    intro k0 acc
    simp [processBatches]
  | cons b bs ih =>
    intro k0 acc
    unfold processBatches
    rw [if_pos (hc k0)]
    dsimp only
    rw [ih (k0 + 1)]
    simp [List.append_assoc]

/-- Every relation produced from a batch's candidate list comes from some
candidate `j`, carries the decoded text of window `(i0 + j) / nrs`, and its
fields are those of a fragment the parser extracted from that candidate. -/
lemma mem_processPreds (dec : List Nat → String) (nrs : Nat)
    (bIds : List (List Nat)) :
    ∀ (preds : List String) (i0 : Nat) (r : Relation),
      r ∈ processPreds dec nrs bIds i0 preds →
      ∃ j, j < preds.length ∧
        ∃ fr ∈ extractRelationsFromModelOutput (preds.getD j ""),
          r = ⟨fr.head, fr.type, fr.tail, ⟨dec (bIds.getD ((i0 + j) / nrs) [])⟩⟩ := by
  intro preds
  induction preds with
  | nil =>
    intro i0 r hr
    exact absurd hr (List.not_mem_nil r)
  | cons p rest ih =>
    intro i0 r hr
    unfold processPreds at hr
    dsimp only at hr
    rcases List.mem_append.mp hr with h | h
    · obtain ⟨fr, hfr, hfr2⟩ := List.mem_map.mp h
      refine ⟨0, by simp, fr, by simpa using hfr, ?_⟩
      rw [← hfr2, Nat.add_zero]
    · obtain ⟨j, hj, fr, hfr, hreq⟩ := ih (i0 + 1) r h
      refine ⟨j + 1, by simpa using Nat.succ_lt_succ hj, fr, by simpa using hfr, ?_⟩
      rw [hreq]
      rw [show i0 + 1 + j = i0 + (j + 1) by omega]

/-! ### Claims about the batch orchestrator -/

/-- C2: if the cancellation token first reports cancelled at batch boundary
`k` (with at least `k + 1` batches planned, so including `k = 0` before the
first batch), the run returns the cancellation error — no relation list,
no relations from the already-processed batches — and exactly `k` generate
calls were issued, i.e. none at or after the cancelled poll. -/
theorem C2_cancellation (inputIds attentionMask : List Nat)
    (batchSize numReturnSequences : Nat) (cancelled : Nat → Bool)
    (gen : List (List Nat) → List (List Nat) → List String)
    (dec : List Nat → String) (k : Nat)
    (hk : k < (batchesOf inputIds attentionMask batchSize).length)
    (hck : cancelled k = true)
    (hprev : ∀ j, j < k → cancelled j = false) :
    runRelationExtraction inputIds attentionMask batchSize numReturnSequences
      cancelled gen dec = (.error cancelMsg, k) := by
  unfold runRelationExtraction
  exact processBatches_cancel gen dec numReturnSequences cancelled _ 0 [] k hk
    (by simpa using hck) (by intro j hj; simpa using hprev j hj)

set_option maxRecDepth 40000 in
/-- C2, witness: a 300-token document (two windows of span 256, batch size
1, so two batches), with a token that reports cancelled at the second poll:
the run errors out after exactly one generate call. -/
theorem C2_cancellation_witness :
    runRelationExtraction (List.range 300) (List.range 300) 1 1
        (fun k => decide (k = 1))
        (fun ids _ => ids.map (fun _ => "<triplet> A <subj> B <obj> C"))
        (fun _ => "w") = (.error cancelMsg, 1) :=
  C2_cancellation (List.range 300) (List.range 300) 1 1
    (fun k => decide (k = 1))
    (fun ids _ => ids.map (fun _ => "<triplet> A <subj> B <obj> C"))
    (fun _ => "w") 1 (by decide) (by decide)
    (by
      intro j hj
      have hj0 : j = 0 := by omega
      rw [hj0]
      rfl)

/-- C7: in a run where no poll reports cancelled and the generator honors
its contract (`num_return_sequences` candidates per window, row-major), the
run succeeds with one generate call per batch, and every returned relation
originates from some candidate `i` of some batch, whose source window is
the window at index `i / num_return_sequences` of that batch; the
relation's `meta.information` is the decoded (special-tokens-stripped)
text of exactly that window, and its other fields come from a fragment the
parser extracted from candidate `i`. -/
theorem C7_provenance (inputIds attentionMask : List Nat)
    (batchSize numReturnSequences : Nat) (cancelled : Nat → Bool)
    (gen : List (List Nat) → List (List Nat) → List String)
    (dec : List Nat → String)
    (hc : ∀ k, cancelled k = false)
    (hg : ∀ p ∈ batchesOf inputIds attentionMask batchSize,
      (gen p.1 p.2).length = p.1.length * numReturnSequences)
    (hn : 0 < numReturnSequences) :
    ∃ R, runRelationExtraction inputIds attentionMask batchSize
        numReturnSequences cancelled gen dec =
        (.ok R, (batchesOf inputIds attentionMask batchSize).length) ∧
      ∀ r ∈ R, ∃ p ∈ batchesOf inputIds attentionMask batchSize,
        ∃ i, i < (gen p.1 p.2).length ∧
          i / numReturnSequences < p.1.length ∧
          ∃ fr ∈ extractRelationsFromModelOutput ((gen p.1 p.2).getD i ""),
            r = ⟨fr.head, fr.type, fr.tail,
              ⟨dec (p.1.getD (i / numReturnSequences) [])⟩⟩ := by
  refine ⟨([] ++ ((batchesOf inputIds attentionMask batchSize).map
      (fun b => processPreds dec numReturnSequences b.1 0 (gen b.1 b.2))).flatten),
    ?_, ?_⟩
  · unfold runRelationExtraction
    exact processBatches_ok gen dec numReturnSequences cancelled hc _ 0 []
  · intro r hr
    rw [List.nil_append, List.mem_flatten] at hr
    obtain ⟨chunk, hchunk, hrc⟩ := hr
    obtain ⟨p, hp, rfl⟩ := List.mem_map.mp hchunk
    obtain ⟨j, hj, fr, hfr, hreq⟩ :=
      mem_processPreds dec numReturnSequences p.1 (gen p.1 p.2) 0 r hrc
    refine ⟨p, hp, j, hj, ?_, fr, hfr, ?_⟩
    · rw [Nat.div_lt_iff_lt_mul hn]
      rw [hg p hp] at hj
      exact hj
    · rw [hreq]
      rw [Nat.zero_add]

set_option maxRecDepth 40000 in
/-- C7, witness: the uncancelled two-batch run of the C2 witness scenario,
with a generator emitting one candidate per window. -/
theorem C7_provenance_witness :
    ∃ R, runRelationExtraction (List.range 300) (List.range 300) 1 1
        (fun _ => false)
        (fun ids _ => ids.map (fun _ => "<triplet> A <subj> B <obj> C"))
        (fun w => if w.length = 256 then "w0" else "w1") =
        (.ok R, (batchesOf (List.range 300) (List.range 300) 1).length) ∧
      ∀ r ∈ R, ∃ p ∈ batchesOf (List.range 300) (List.range 300) 1,
        ∃ i, i < ((fun (ids : List (List Nat)) (_ : List (List Nat)) =>
            ids.map (fun _ => "<triplet> A <subj> B <obj> C")) p.1 p.2).length ∧
          i / 1 < p.1.length ∧
          ∃ fr ∈ extractRelationsFromModelOutput
            (((fun (ids : List (List Nat)) (_ : List (List Nat)) =>
              ids.map (fun _ => "<triplet> A <subj> B <obj> C")) p.1 p.2).getD i ""),
            r = ⟨fr.head, fr.type, fr.tail,
              ⟨(fun (w : List Nat) => if w.length = 256 then "w0" else "w1")
                (p.1.getD (i / 1) [])⟩⟩ :=
  C7_provenance (List.range 300) (List.range 300) 1 1
    (fun _ => false)
    (fun ids _ => ids.map (fun _ => "<triplet> A <subj> B <obj> C"))
    (fun w => if w.length = 256 then "w0" else "w1")
    (fun _ => rfl) (by decide) (by decide)

end RelationExtraction
